import Mathlib

/-!
Verification of the UserNotes database (src/plugins/UserNotes/db.c).

The development shallowly embeds the store (a hashtable of DB_OBJECT records
keyed by tag plus case-insensitive name) and the XML codec (LoadDb / SaveDb).
Text is modelled as lists of characters; machine integers as Nat with explicit
reductions modulo 2 ^ 32 (ULONG casts) and 2 ^ 64 (ULONG64 / ULONG_PTR).
-/

/-- Text (PH_STRINGREF / UTF-8 attribute values) is modelled as a list of
characters. -/
abbrev Str := List Char

/-- Case folding on a single code point: ASCII lowercase letters are mapped to
uppercase, everything else unchanged.  This models the upcasing that the phlib
string routines apply when their IgnoreCase argument is TRUE. -/
def upcaseNat (n : Nat) : Nat :=
  if 97 ≤ n ∧ n ≤ 122 then n - 32 else n

/-- The case-folded code-point sequence of a string; two strings are equal
ignoring case exactly when their folds are equal. -/
def keyFold (s : Str) : List Nat :=
  s.map fun c => upcaseNat c.toNat

/-- Modelled from the spec: PhEqualStringRef (phlib, not under src/) compares
two strings for equality, ignoring letter case when its last argument is TRUE.
The spec's key invariant states that name comparison through this call with
TRUE is case-insensitive. -/
def phEqualStringRef (a b : Str) (ignoreCase : Bool) : Bool :=
  if ignoreCase then keyFold a == keyFold b else a == b

/-- Modelled from the spec: PhEqualBytesZ (phlib, not under src/) compares two
byte strings for equality; its last argument is the same IgnoreCase flag taken
by PhEqualStringRef, so TRUE means the comparison ignores letter case. -/
def phEqualBytesZ (a b : Str) (ignoreCase : Bool) : Bool :=
  phEqualStringRef a b ignoreCase

/-- Modelled from the spec: PhHashStringRef (phlib, not under src/) hashes a
string, hashing its case-folded form when IgnoreCase is TRUE ("a
case-insensitive hash of name"). -/
def phHashStringRef (s : Str) (ignoreCase : Bool) : Nat :=
  (if ignoreCase then keyFold s else s.map Char.toNat).foldl
    (fun h c => (h * 31 + c) % 2 ^ 32) 0

/-- Truncating cast to ULONG (32-bit unsigned). -/
def toULONG (n : Nat) : Nat := n % 2 ^ 32

/-- Truncating cast to ULONG_PTR / ULONG64 (64-bit unsigned). -/
def toULONGPTR (n : Nat) : Nat := n % 2 ^ 64

/-- DB_OBJECT: the record stored per key (db.h / db.c).  Key is the (tag,
name) pair; BackColor is created as ULONG_MAX, the "no color" sentinel. -/
@[ext]
structure DbObject where
  tag : Nat
  name : Str
  comment : Str
  priorityClass : Nat
  ioPriorityPlusOne : Nat
  backColor : Nat
  collapse : Bool
  affinityMask : Nat
deriving DecidableEq, Repr

/-- ObjectDbEqualFunction: records are equal when tags match exactly and keys
match ignoring case. -/
def objectDbEqualFunction (o1 o2 : DbObject) : Bool :=
  o1.tag == o2.tag && phEqualStringRef o1.name o2.name true

/-- ObjectDbHashFunction: Tag + PhHashStringRef(Key, TRUE), a ULONG sum. -/
def objectDbHashFunction (o : DbObject) : Nat :=
  (o.tag + phHashStringRef o.name true) % 2 ^ 32

/-- The key a record hashes and compares by: exact tag plus case-folded name. -/
def keyOf (o : DbObject) : Nat × List Nat :=
  (o.tag, keyFold o.name)

/-- The hashtable ObjectDb, modelled as its entry list in bucket order. -/
abbrev Store := List DbObject

/-- The predicate a lookup with key (tag, name) applies to a stored record:
exact tag equality and case-insensitive name equality, as in
ObjectDbEqualFunction. -/
def sameKey (tag : Nat) (name : Str) (o : DbObject) : Bool :=
  o.tag == tag && phEqualStringRef o.name name true

/-- FindDbObject: look the key up through the hashtable's equal function. -/
def FindDbObject (db : Store) (tag : Nat) (name : Str) : Option DbObject :=
  db.find? (sameKey tag name)

/-- Replace the first record matching the key by the given record (the model of
mutating, in place, the entry PhAddEntryHashtableEx / PhFindEntryHashtable
returned). -/
def setAtKey (db : Store) (tag : Nat) (name : Str) (o : DbObject) : Store :=
  match db with
  | [] => []
  | x :: rest =>
    if sameKey tag name x then o :: rest else x :: setAtKey rest tag name o

/-- CreateDbObject: add a zeroed record with BackColor = ULONG_MAX under the
key; if the key is already present, return the existing record instead,
swapping in the comment only when one was supplied (PhSwapReference).  Returns
the updated table and the returned record. -/
def CreateDbObject (db : Store) (Tag : Nat) (Name : Str) (Comment : Option Str) :
    Store × DbObject :=
  match FindDbObject db Tag Name with
  | some obj =>
    let obj2 := match Comment with
      | some c => { obj with comment := c }
      | none => obj
    (setAtKey db Tag Name obj2, obj2)
  | none =>
    let obj : DbObject :=
      { tag := Tag, name := Name, comment := Comment.getD []
        priorityClass := 0, ioPriorityPlusOne := 0
        backColor := 2 ^ 32 - 1, collapse := false, affinityMask := 0 }
    (db ++ [obj], obj)

/-- DeleteDbObject: PhRemoveEntryHashtable removes the entry equal (per
ObjectDbEqualFunction) to the given record. -/
def DeleteDbObject (db : Store) (o : DbObject) : Store :=
  db.eraseP (fun x => objectDbEqualFunction o x)

/-- GetNumberOfDbObjects: the hashtable's Count. -/
def GetNumberOfDbObjects (db : Store) : Nat := db.length

/-- Executable check that no two records of the store are equal per
ObjectDbEqualFunction. -/
def storeUniqueB : Store → Bool
  | [] => true
  | o :: rest => rest.all (fun x => !objectDbEqualFunction o x) && storeUniqueB rest

/-- The key invariant: no two live records share a key. -/
abbrev StoreUnique (db : Store) : Prop := storeUniqueB db = true

/-- ASCII decimal digit test. -/
def isDecimalDigit (c : Char) : Bool := 48 ≤ c.toNat && c.toNat ≤ 57

/-- The value of a digit string read most-significant first. -/
def digitsToNat (s : Str) : Nat :=
  s.foldl (fun acc c => acc * 10 + (c.toNat - 48)) 0

/-- Modelled from the spec: PhStringToInteger64 (phlib, not under src/) with
base 10 parses unsigned decimal text into a ULONG64; per the spec,
"Integer parsing uses base 10, unsigned, no fractional or signed forms;
out-of-range or non-numeric text is treated as 0". -/
def PhStringToInteger64 (s : Str) : Nat :=
  if s ≠ [] ∧ s.all isDecimalDigit ∧ digitsToNat s < 2 ^ 64 then digitsToNat s
  else 0

/-- Decimal digits of a positive number, most significant first; the fuel
argument (any bound on the value) makes the recursion structural. -/
def natDigitsAux : Nat → Nat → Str
  | 0, _ => []
  | fuel + 1, n =>
    if n = 0 then [] else natDigitsAux fuel (n / 10) ++ [Nat.digitChar (n % 10)]

/-- FormatValueToUtf8: a ULONG64 rendered as decimal text. -/
def FormatValueToUtf8 (n : Nat) : Str :=
  if n = 0 then [Nat.digitChar 0] else natDigitsAux n n

/-- The node types mxmlGetType distinguishes here. -/
inductive MxmlType
  | element
  | text
deriving DecidableEq, Repr

/-- A child of the root node: an element with its attribute list (name, value
pairs in document order) and its opaque body text (empty when absent), or some
other node kind, which carries no attributes. -/
inductive XmlChild
  | element (attrs : List (Str × Str)) (body : Str)
  | other
deriving DecidableEq, Repr

/-- The root node mxmlLoadFd produced: an element container, or a non-element
node (e.g. a bare text document). -/
inductive XmlNode
  | element (children : List XmlChild)
  | textNode (s : Str)
deriving DecidableEq, Repr

/-- mxmlGetType of the root node. -/
def mxmlGetType : XmlNode → MxmlType
  | .element _ => .element
  | .textNode _ => .text

/-- The NTSTATUS values LoadDb distinguishes after a successful parse. -/
inductive NtStatus
  | success
  | fileCorruptError
deriving DecidableEq, Repr

/-- The attribute values the per-element scan loop of LoadDb has bound so far
(NULL modelled as none). -/
structure ScanState where
  tag : Option Str := none
  name : Option Str := none
  priorityClass : Option Str := none
  ioPriorityPlusOne : Option Str := none
  backColor : Option Str := none
  collapse : Option Str := none
  affinityMask : Option Str := none
deriving DecidableEq, Repr

/-- One iteration of LoadDb's attribute loop: the else-if chain of
PhEqualBytesZ(elementName, ..., TRUE) tests, PhMoveReference overwriting any
earlier binding. -/
def scanAttr (s : ScanState) (a : Str × Str) : ScanState :=
  if phEqualBytesZ a.1 "tag".data true then { s with tag := some a.2 }
  else if phEqualBytesZ a.1 "name".data true then { s with name := some a.2 }
  else if phEqualBytesZ a.1 "priorityclass".data true then
    { s with priorityClass := some a.2 }
  else if phEqualBytesZ a.1 "iopriorityplusone".data true then
    { s with ioPriorityPlusOne := some a.2 }
  else if phEqualBytesZ a.1 "backcolor".data true then
    { s with backColor := some a.2 }
  else if phEqualBytesZ a.1 "collapse".data true then
    { s with collapse := some a.2 }
  else if phEqualBytesZ a.1 "affinity".data true then
    { s with affinityMask := some a.2 }
  else s

/-- LoadDb's attribute loop: runs only when the element has at least two
attributes, visiting them in order. -/
def scanAttrs (attrs : List (Str × Str)) : ScanState :=
  if attrs.length ≥ 2 then attrs.foldl scanAttr {} else {}

/-- The field assignments LoadDb performs on the materialized object:
PriorityClass and IoPriorityPlusOne always (absent attributes parse as 0);
BackColor, Collapse and AffinityMask only when their attribute was present. -/
def writeFields (s : ScanState) (o : DbObject) : DbObject :=
  { o with
    priorityClass := toULONG ((s.priorityClass.map PhStringToInteger64).getD 0)
    ioPriorityPlusOne :=
      toULONG ((s.ioPriorityPlusOne.map PhStringToInteger64).getD 0)
    backColor := match s.backColor with
      | some v => toULONG (PhStringToInteger64 v)
      | none => o.backColor
    collapse := match s.collapse with
      | some v => PhStringToInteger64 v != 0
      | none => o.collapse
    affinityMask := match s.affinityMask with
      | some v => toULONGPTR (PhStringToInteger64 v)
      | none => o.affinityMask }

/-- Processing of one child node in LoadDb's main loop: scan the attributes,
read the body text as the comment, and, when both tag and name were bound,
materialize through CreateDbObject ((ULONG) cast of the parsed tag) and apply
the field assignments to the returned object. -/
def loadElement (db : Store) (child : XmlChild) : Store :=
  match child with
  | .other => db
  | .element attrs body =>
    let s := scanAttrs attrs
    match s.tag, s.name with
    | some tagS, some nameS =>
      let tagI := toULONG (PhStringToInteger64 tagS)
      let created := CreateDbObject db tagI nameS (some body)
      setAtKey created.1 tagI nameS (writeFields s created.2)
    | _, _ => db

/-- LoadDb, from the parse result onward: a failed parse (none) or a root that
is not an element yields STATUS_FILE_CORRUPT_ERROR and leaves the store alone;
otherwise every child of the root is processed in order. -/
def LoadDb (topNode : Option XmlNode) (db : Store) : NtStatus × Store :=
  match topNode with
  | none => (.fileCorruptError, db)
  | some (.textNode _) => (.fileCorruptError, db)
  | some (.element children) => (.success, children.foldl loadElement db)

/-- The element SaveDb emits for one record: all seven attributes always
present as decimal text, the comment as the body. -/
def saveObjectNode (o : DbObject) : XmlChild :=
  .element
    [("tag".data, FormatValueToUtf8 o.tag),
     ("name".data, o.name),
     ("priorityclass".data, FormatValueToUtf8 o.priorityClass),
     ("iopriorityplusone".data, FormatValueToUtf8 o.ioPriorityPlusOne),
     ("backcolor".data, FormatValueToUtf8 o.backColor),
     ("collapse".data, FormatValueToUtf8 (if o.collapse then 1 else 0)),
     ("affinity".data, FormatValueToUtf8 o.affinityMask)]
    o.comment

/-- SaveDb: the document built from the store's enumeration. -/
def SaveDb (db : Store) : XmlNode :=
  .element (db.map saveObjectNode)

/-- A record whose numeric fields fit the machine widths db.c stores them in
(ULONG fields and the ULONG_PTR affinity mask). -/
abbrev DbObject.WellFormed (o : DbObject) : Prop :=
  o.tag < 2 ^ 32 ∧ o.priorityClass < 2 ^ 32 ∧ o.ioPriorityPlusOne < 2 ^ 32 ∧
    o.backColor < 2 ^ 32 ∧ o.affinityMask < 2 ^ 64

/-- The seven named fields of a record element. -/
inductive DbField
  | tag
  | name
  | priorityClass
  | ioPriorityPlusOne
  | backColor
  | collapse
  | affinityMask
deriving DecidableEq, Repr

/-- Which field, if any, an attribute name binds to, per the else-if chain of
LoadDb's attribute loop. -/
def fieldOf (n : Str) : Option DbField :=
  if phEqualBytesZ n "tag".data true then some .tag
  else if phEqualBytesZ n "name".data true then some .name
  else if phEqualBytesZ n "priorityclass".data true then some .priorityClass
  else if phEqualBytesZ n "iopriorityplusone".data true then
    some .ioPriorityPlusOne
  else if phEqualBytesZ n "backcolor".data true then some .backColor
  else if phEqualBytesZ n "collapse".data true then some .collapse
  else if phEqualBytesZ n "affinity".data true then some .affinityMask
  else none

/-! ### Keys and the equal function -/

theorem sameKey_iff {t : Nat} {n : Str} {o : DbObject} :
    sameKey t n o = true ↔ o.tag = t ∧ keyFold o.name = keyFold n := by
  simp [sameKey, phEqualStringRef]

theorem objectDbEqualFunction_iff {a b : DbObject} :
    objectDbEqualFunction a b = true ↔ keyOf a = keyOf b := by
  simp [objectDbEqualFunction, phEqualStringRef, keyOf, Prod.ext_iff]

theorem keyOf_eq_of_sameKey {t : Nat} {n : Str} {a b : DbObject}
    (ha : sameKey t n a = true) (hb : sameKey t n b = true) :
    keyOf a = keyOf b := by
  rcases sameKey_iff.mp ha with ⟨h1, h2⟩
  rcases sameKey_iff.mp hb with ⟨h3, h4⟩
  simp [keyOf, h1, h2, h3, h4]

theorem sameKey_congr {t : Nat} {n n' : Str} (h : keyFold n = keyFold n')
    (o : DbObject) : sameKey t n o = sameKey t n' o := by
  simp [sameKey, phEqualStringRef, h]

theorem sameKey_of_keyOf_eq {t : Nat} {n : Str} {a b : DbObject}
    (hab : keyOf a = keyOf b) (ha : sameKey t n a = true) :
    sameKey t n b = true := by
  rcases sameKey_iff.mp ha with ⟨h1, h2⟩
  rcases Prod.mk.injEq .. ▸ hab with ⟨h3, h4⟩
  exact sameKey_iff.mpr ⟨h3 ▸ h1, h4 ▸ h2⟩

theorem writeFields_tag (s : ScanState) (o : DbObject) :
    (writeFields s o).tag = o.tag := rfl

theorem writeFields_name (s : ScanState) (o : DbObject) :
    (writeFields s o).name = o.name := rfl

theorem sameKey_writeFields (s : ScanState) {t : Nat} {n : Str} (o : DbObject) :
    sameKey t n (writeFields s o) = sameKey t n o := rfl

theorem sameKey_setComment {t : Nat} {n : Str} (o : DbObject) (c : Str) :
    sameKey t n { o with comment := c } = sameKey t n o := rfl

/-! ### Decimal parse / format round trip -/

theorem digitChar_decimal : ∀ d, d < 10 → isDecimalDigit (Nat.digitChar d) = true := by
  decide

theorem digitChar_toNat_sub : ∀ d, d < 10 → (Nat.digitChar d).toNat - 48 = d := by
  decide

theorem natDigitsAux_all : ∀ fuel n : Nat,
    (natDigitsAux fuel n).all isDecimalDigit = true := by
  intro fuel
  induction fuel with
  | zero => intro n; rfl
  | succ f ih =>
    intro n
    rw [natDigitsAux]
    split
    · rfl
    · rw [List.all_append]
      simp [ih, digitChar_decimal _ (Nat.mod_lt n (by omega))]

theorem natDigitsAux_foldl : ∀ fuel n : Nat, n ≤ fuel → ∀ acc : Nat,
    List.foldl (fun acc c => acc * 10 + (c.toNat - 48)) acc (natDigitsAux fuel n)
      = acc * 10 ^ (natDigitsAux fuel n).length + n := by
  intro fuel
  induction fuel with
  | zero =>
    intro n hn acc
    interval_cases n
    simp [natDigitsAux]
  | succ f ih =>
    intro n hn acc
    rw [natDigitsAux]
    split
    · rename_i h
      subst h
      simp
    · rename_i h
      have hdiv : n / 10 ≤ f := by omega
      rw [List.foldl_append, ih (n / 10) hdiv acc, List.length_append]
      simp only [List.length_cons, List.length_nil, List.foldl_cons, List.foldl_nil]
      rw [digitChar_toNat_sub _ (Nat.mod_lt n (by omega)), Nat.add_zero,
        pow_succ, ← mul_assoc]
      omega

theorem natDigitsAux_ne_nil {fuel n : Nat} (h1 : n ≠ 0) (h2 : n ≤ fuel) :
    natDigitsAux fuel n ≠ [] := by
  cases fuel with
  | zero => omega
  | succ f =>
    rw [natDigitsAux]
    simp [h1]

theorem digitsToNat_format (n : Nat) : digitsToNat (FormatValueToUtf8 n) = n := by
  rw [FormatValueToUtf8]
  split
  · rename_i h
    subst h
    rfl
  · have := natDigitsAux_foldl n n le_rfl 0
    simpa [digitsToNat] using this

theorem format_all_digits (n : Nat) :
    (FormatValueToUtf8 n).all isDecimalDigit = true := by
  rw [FormatValueToUtf8]
  split
  · rfl
  · exact natDigitsAux_all n n

theorem format_ne_nil (n : Nat) : FormatValueToUtf8 n ≠ [] := by
  rw [FormatValueToUtf8]
  split
  · simp
  · exact natDigitsAux_ne_nil (by assumption) le_rfl

theorem parse_format {n : Nat} (h : n < 2 ^ 64) :
    PhStringToInteger64 (FormatValueToUtf8 n) = n := by
  rw [PhStringToInteger64, if_pos, digitsToNat_format]
  refine ⟨format_ne_nil n, format_all_digits n, ?_⟩
  rw [digitsToNat_format]
  exact h

/-! ### Generic find? helpers -/

theorem find?_append_some {α : Type} {p : α → Bool} {l1 l2 : List α} {a : α}
    (h : l1.find? p = some a) : (l1 ++ l2).find? p = some a := by
  induction l1 with
  | nil => simp at h
  | cons x rest ih =>
    rw [List.cons_append, List.find?]
    rw [List.find?] at h
    cases hp : p x with
    | true => simpa [hp] using h
    | false =>
      rw [hp] at h
      simpa [hp] using ih h

theorem find?_append_none {α : Type} {p : α → Bool} {l1 : List α} (l2 : List α)
    (h : l1.find? p = none) : (l1 ++ l2).find? p = l2.find? p := by
  induction l1 with
  | nil => rfl
  | cons x rest ih =>
    rw [List.find?_cons] at h
    cases hp : p x with
    | true => simp [hp] at h
    | false =>
      rw [hp] at h
      simpa [List.find?_cons, hp] using ih h

theorem find?_decomp {α : Type} {p : α → Bool} {l : List α} {a : α}
    (h : l.find? p = some a) :
    ∃ pre rest, l = pre ++ a :: rest ∧ (∀ z ∈ pre, p z = false) ∧ p a = true := by
  induction l with
  | nil => simp at h
  | cons x rest ih =>
    rw [List.find?_cons] at h
    cases hp : p x with
    | true =>
      rw [hp] at h
      obtain rfl : x = a := by simpa using h
      exact ⟨[], rest, rfl, by simp, hp⟩
    | false =>
      rw [hp] at h
      obtain ⟨pre, tail, rfl, hpre, hpa⟩ := ih h
      exact ⟨x :: pre, tail, rfl, by
        intro z hz
        rcases List.mem_cons.mp hz with rfl | hz
        · exact hp
        · exact hpre z hz, hpa⟩

/-! ### setAtKey lemmas -/

theorem setAtKey_of_find?_none {db : Store} {t : Nat} {n : Str} (x : DbObject)
    (h : db.find? (sameKey t n) = none) : setAtKey db t n x = db := by
  induction db with
  | nil => rfl
  | cons y rest ih =>
    rw [List.find?_cons] at h
    cases hy : sameKey t n y with
    | true => simp [hy] at h
    | false =>
      rw [hy] at h
      rw [setAtKey, if_neg (by simp [hy]), ih h]

theorem setAtKey_append_some {l1 l2 : Store} {t : Nat} {n : Str} {z : DbObject}
    (x : DbObject) (h : l1.find? (sameKey t n) = some z) :
    setAtKey (l1 ++ l2) t n x = setAtKey l1 t n x ++ l2 := by
  induction l1 with
  | nil => simp at h
  | cons y rest ih =>
    rw [List.find?_cons] at h
    cases hy : sameKey t n y with
    | true => simp [setAtKey, hy]
    | false =>
      rw [hy] at h
      simp only [List.cons_append, setAtKey, if_neg (by simp [hy] : ¬sameKey t n y = true)]
      exact congrArg (fun l => y :: l) (ih h)

theorem setAtKey_append_none {l1 : Store} {t : Nat} {n : Str} (l2 : Store)
    (x : DbObject) (h : l1.find? (sameKey t n) = none) :
    setAtKey (l1 ++ l2) t n x = l1 ++ setAtKey l2 t n x := by
  induction l1 with
  | nil => rfl
  | cons y rest ih =>
    rw [List.find?_cons] at h
    cases hy : sameKey t n y with
    | true => simp [hy] at h
    | false =>
      rw [hy] at h
      simp only [List.cons_append, setAtKey, if_neg (by simp [hy] : ¬sameKey t n y = true)]
      exact congrArg (fun l => y :: l) (ih h)

theorem setAtKey_decomp {pre rest : Store} {t : Nat} {n : Str} {a : DbObject}
    (y : DbObject) (hpre : ∀ z ∈ pre, sameKey t n z = false)
    (ha : sameKey t n a = true) :
    setAtKey (pre ++ a :: rest) t n y = pre ++ y :: rest := by
  rw [setAtKey_append_none _ y (List.find?_eq_none.mpr (by simpa using hpre))]
  rw [setAtKey, if_pos ha]

theorem find?_setAtKey_self {db : Store} {t : Nat} {n : Str} {o x : DbObject}
    (h : db.find? (sameKey t n) = some o) (hx : sameKey t n x = true) :
    (setAtKey db t n x).find? (sameKey t n) = some x := by
  obtain ⟨pre, rest, rfl, hpre, hpo⟩ := find?_decomp h
  rw [setAtKey_decomp x hpre hpo,
    find?_append_none _ (List.find?_eq_none.mpr (by simpa using hpre)),
    List.find?_cons, hx]

theorem mem_setAtKey {db : Store} {t : Nat} {n : Str} {x y : DbObject}
    (h : y ∈ setAtKey db t n x) : y ∈ db ∨ y = x := by
  induction db with
  | nil => simp [setAtKey] at h
  | cons z rest ih =>
    rw [setAtKey] at h
    by_cases hz : sameKey t n z = true
    · rw [if_pos hz] at h
      rcases List.mem_cons.mp h with rfl | h
      · exact Or.inr rfl
      · exact Or.inl (List.mem_cons_of_mem _ h)
    · rw [if_neg hz] at h
      rcases List.mem_cons.mp h with rfl | h
      · exact Or.inl (List.mem_cons_self _ _)
      · rcases ih h with h | h
        · exact Or.inl (List.mem_cons_of_mem _ h)
        · exact Or.inr h

theorem map_keyOf_setAtKey {db : Store} {t : Nat} {n : Str} {x : DbObject}
    (hx : sameKey t n x = true) :
    (setAtKey db t n x).map keyOf = db.map keyOf := by
  induction db with
  | nil => rfl
  | cons z rest ih =>
    rw [setAtKey]
    by_cases hz : sameKey t n z = true
    · rw [if_pos hz]
      simp [keyOf_eq_of_sameKey hx hz]
    · rw [if_neg hz]
      simp [ih]

theorem find?_isSome_setAtKey {db : Store} {t : Nat} {n : Str} {x : DbObject}
    (hx : sameKey t n x = true) (t' : Nat) (n' : Str) :
    ((setAtKey db t n x).find? (sameKey t' n')).isSome
      = (db.find? (sameKey t' n')).isSome := by
  induction db with
  | nil => rfl
  | cons z rest ih =>
    rw [setAtKey]
    by_cases hz : sameKey t n z = true
    · rw [if_pos hz]
      have hkey : keyOf x = keyOf z := keyOf_eq_of_sameKey hx hz
      have hxz : sameKey t' n' x = sameKey t' n' z := by
        cases hz2 : sameKey t' n' z with
        | true => exact sameKey_of_keyOf_eq hkey.symm hz2
        | false =>
          cases hx2 : sameKey t' n' x with
          | true => rw [sameKey_of_keyOf_eq hkey hx2] at hz2; cases hz2
          | false => rfl
      rw [List.find?_cons, List.find?_cons, hxz]
      cases sameKey t' n' z <;> rfl
    · rw [if_neg hz]
      rw [List.find?_cons, List.find?_cons]
      cases hz2 : sameKey t' n' z with
      | true => rfl
      | false => exact ih

/-! ### The uniqueness invariant as Nodup of keys -/

theorem storeUnique_cons {o : DbObject} {rest : Store} :
    StoreUnique (o :: rest)
      ↔ (∀ x ∈ rest, objectDbEqualFunction o x = false) ∧ StoreUnique rest := by
  show ((rest.all fun x => !objectDbEqualFunction o x) && storeUniqueB rest)
      = true ↔ _
  rw [Bool.and_eq_true, List.all_eq_true]
  simp only [Bool.not_eq_true']

theorem storeUnique_iff_nodup {db : Store} :
    StoreUnique db ↔ (db.map keyOf).Nodup := by
  induction db with
  | nil => simp [StoreUnique, storeUniqueB]
  | cons o rest ih =>
    rw [storeUnique_cons, List.map_cons, List.nodup_cons, ih]
    constructor
    · rintro ⟨h1, h2⟩
      refine ⟨fun hmem => ?_, h2⟩
      obtain ⟨x, hx, hkey⟩ := List.mem_map.mp hmem
      have hfalse := h1 x hx
      rw [objectDbEqualFunction_iff.mpr hkey.symm] at hfalse
      cases hfalse
    · rintro ⟨h1, h2⟩
      refine ⟨fun x hx => ?_, h2⟩
      cases heq : objectDbEqualFunction o x with
      | false => rfl
      | true =>
        exact absurd (List.mem_map.mpr ⟨x, hx, (objectDbEqualFunction_iff.mp heq).symm⟩) h1

theorem storeUnique_setAtKey {db : Store} {t : Nat} {n : Str} {x : DbObject}
    (hx : sameKey t n x = true) (h : StoreUnique db) :
    StoreUnique (setAtKey db t n x) := by
  rw [storeUnique_iff_nodup] at h ⊢
  rw [map_keyOf_setAtKey hx]
  exact h

theorem keyOf_not_mem_of_find?_none {db : Store} {t : Nat} {n : Str}
    (h : db.find? (sameKey t n) = none) {x : DbObject}
    (hx : sameKey t n x = true) : keyOf x ∉ db.map keyOf := by
  intro hmem
  obtain ⟨y, hy, hkey⟩ := List.mem_map.mp hmem
  have : sameKey t n y = true := sameKey_of_keyOf_eq hkey.symm hx
  exact absurd this (by simpa using (List.find?_eq_none.mp h) y hy)

theorem storeUnique_append_fresh {db : Store} {x : DbObject}
    (h : StoreUnique db) (hfresh : keyOf x ∉ db.map keyOf) :
    StoreUnique (db ++ [x]) := by
  rw [storeUnique_iff_nodup] at h ⊢
  rw [List.map_append, List.nodup_append]
  exact ⟨h, List.nodup_singleton _, by simpa [List.disjoint_singleton] using hfresh⟩

/-! ### CreateDbObject unfoldings -/

theorem createDbObject_none {db : Store} {t : Nat} {n : Str} {c : Option Str}
    (hf : FindDbObject db t n = none) :
    CreateDbObject db t n c =
      (db ++ [⟨t, n, c.getD [], 0, 0, 2 ^ 32 - 1, false, 0⟩],
       ⟨t, n, c.getD [], 0, 0, 2 ^ 32 - 1, false, 0⟩) := by
  rw [CreateDbObject, hf]

theorem createDbObject_some_some {db : Store} {t : Nat} {n : Str} {o : DbObject}
    {cc : Str} (hf : FindDbObject db t n = some o) :
    CreateDbObject db t n (some cc) =
      (setAtKey db t n { o with comment := cc }, { o with comment := cc }) := by
  rw [CreateDbObject, hf]

theorem createDbObject_some_none {db : Store} {t : Nat} {n : Str} {o : DbObject}
    (hf : FindDbObject db t n = some o) :
    CreateDbObject db t n none = (setAtKey db t n o, o) := by
  rw [CreateDbObject, hf]

theorem createDbObject_none_fst {db : Store} {t : Nat} {n : Str}
    {c : Option Str} (hf : FindDbObject db t n = none) :
    (CreateDbObject db t n c).1
      = db ++ [⟨t, n, c.getD [], 0, 0, 2 ^ 32 - 1, false, 0⟩] := by
  rw [createDbObject_none hf]

theorem createDbObject_none_snd {db : Store} {t : Nat} {n : Str}
    {c : Option Str} (hf : FindDbObject db t n = none) :
    (CreateDbObject db t n c).2
      = ⟨t, n, c.getD [], 0, 0, 2 ^ 32 - 1, false, 0⟩ := by
  rw [createDbObject_none hf]

theorem createDbObject_some_some_fst {db : Store} {t : Nat} {n : Str}
    {o : DbObject} {cc : Str} (hf : FindDbObject db t n = some o) :
    (CreateDbObject db t n (some cc)).1
      = setAtKey db t n { o with comment := cc } := by
  rw [createDbObject_some_some hf]

theorem createDbObject_some_some_snd {db : Store} {t : Nat} {n : Str}
    {o : DbObject} {cc : Str} (hf : FindDbObject db t n = some o) :
    (CreateDbObject db t n (some cc)).2 = { o with comment := cc } := by
  rw [createDbObject_some_some hf]

theorem createDbObject_some_none_fst {db : Store} {t : Nat} {n : Str}
    {o : DbObject} (hf : FindDbObject db t n = some o) :
    (CreateDbObject db t n none).1 = setAtKey db t n o := by
  rw [createDbObject_some_none hf]

theorem createDbObject_some_none_snd {db : Store} {t : Nat} {n : Str}
    {o : DbObject} (hf : FindDbObject db t n = some o) :
    (CreateDbObject db t n none).2 = o := by
  rw [createDbObject_some_none hf]

theorem sameKey_self {t : Nat} {n : Str} {o : DbObject} (h1 : o.tag = t)
    (h2 : o.name = n) : sameKey t n o = true :=
  sameKey_iff.mpr ⟨h1, by rw [h2]⟩

theorem sameKey_createDbObject_snd {db : Store} {t : Nat} {n : Str}
    {c : Option Str} : sameKey t n (CreateDbObject db t n c).2 = true := by
  cases hf : FindDbObject db t n with
  | none =>
    rw [createDbObject_none hf]
    exact sameKey_self rfl rfl
  | some o =>
    have ho : sameKey t n o = true := List.find?_some hf
    cases c with
    | some cc => rw [createDbObject_some_some hf]; simpa [sameKey_setComment] using ho
    | none => rw [createDbObject_some_none hf]; exact ho

/-- C2: if no record exists for the key (tag, name), CreateDbObject creates and
returns a record whose comment is the supplied value (empty text when none is
supplied) with all other fields at their defaults (priorityClass 0,
ioPriorityPlusOne 0, collapse false, affinityMask 0, backColor the all-bits-set
sentinel), appending it to the table; if a record exists, it returns that
record, overwriting its comment exactly when a comment was supplied and
leaving it untouched when the argument is absent. -/
theorem c2_createOrUpdate (db : Store) (Tag : Nat) (Name : Str)
    (Comment : Option Str) :
    (FindDbObject db Tag Name = none →
      (CreateDbObject db Tag Name Comment).2 =
        { tag := Tag, name := Name, comment := Comment.getD []
          priorityClass := 0, ioPriorityPlusOne := 0
          backColor := 2 ^ 32 - 1, collapse := false, affinityMask := 0 }
      ∧ (CreateDbObject db Tag Name Comment).1
          = db ++ [(CreateDbObject db Tag Name Comment).2])
  ∧ (∀ o, FindDbObject db Tag Name = some o →
      (∀ c, Comment = some c →
        (CreateDbObject db Tag Name Comment).2 = { o with comment := c })
      ∧ (Comment = none → (CreateDbObject db Tag Name Comment).2 = o)
      ∧ (CreateDbObject db Tag Name Comment).1
          = setAtKey db Tag Name (CreateDbObject db Tag Name Comment).2) := by
  constructor
  · intro hf
    rw [createDbObject_none hf]
    exact ⟨rfl, rfl⟩
  · intro o hf
    refine ⟨?_, ?_, ?_⟩
    · rintro c rfl
      rw [createDbObject_some_some hf]
    · rintro rfl
      rw [createDbObject_some_none hf]
    · cases Comment with
      | some c => rw [createDbObject_some_some hf]
      | none => rw [createDbObject_some_none hf]

/-- Witness for C2 at a concrete store: updating an existing record (found
case-insensitively) with a supplied comment overwrites exactly the comment. -/
theorem c2_witness :
    (CreateDbObject [⟨5, "Foo".data, "old".data, 1, 2, 3, true, 4⟩] 5 "foo".data
        (some "new".data)).2
      = ⟨5, "Foo".data, "new".data, 1, 2, 3, true, 4⟩ :=
  ((c2_createOrUpdate [⟨5, "Foo".data, "old".data, 1, 2, 3, true, 4⟩] 5
      "foo".data (some "new".data)).2 ⟨5, "Foo".data, "old".data, 1, 2, 3, true, 4⟩
      (by decide)).1 "new".data rfl

/-- C5: decoding the concrete document
objects(object tag=1 name=notepad.exe priorityclass=2 collapse=1 body hello)
into an empty store yields exactly one record with tag 1, name notepad.exe,
comment hello, priorityClass 2, ioPriorityPlusOne 0, backColor the all-bits-set
sentinel, collapse true, affinityMask 0. -/
theorem c5_concrete_decode :
    LoadDb (some (.element [.element
        [("tag".data, "1".data), ("name".data, "notepad.exe".data),
         ("priorityclass".data, "2".data), ("collapse".data, "1".data)]
        "hello".data])) []
      = (NtStatus.success,
         [{ tag := 1, name := "notepad.exe".data, comment := "hello".data,
            priorityClass := 2, ioPriorityPlusOne := 0, backColor := 2 ^ 32 - 1,
            collapse := true, affinityMask := 0 }]) := by
  decide

/-- C9: when the parsed root node is not an element, LoadDb returns the file
corruption status and the store is exactly as it was before the call. -/
theorem c9_corrupt_root (db : Store) (root : XmlNode)
    (h : mxmlGetType root ≠ MxmlType.element) :
    LoadDb (some root) db = (NtStatus.fileCorruptError, db) := by
  cases root with
  | element children => exact absurd rfl h
  | textNode s => rfl

/-- Witness for C9: a bare text document over a nonempty store. -/
theorem c9_witness :
    LoadDb (some (XmlNode.textNode "hello".data))
        [⟨1, "a".data, [], 0, 0, 0, false, 0⟩]
      = (NtStatus.fileCorruptError, [⟨1, "a".data, [], 0, 0, 0, false, 0⟩]) :=
  c9_corrupt_root [⟨1, "a".data, [], 0, 0, 0, false, 0⟩]
    (XmlNode.textNode "hello".data) (by decide)

/-- C4: lookup is exact on tag and case-insensitive on name: after
CreateDbObject(t, n) a FindDbObject(t, n2) with n2 equal to n up to letter
case returns the returned record, while FindDbObject(t2, n) with a different
tag t2 (whose key was absent) returns none; and the hash function agrees with
the equal function, so bucket placement is consistent. -/
theorem c4_lookup_semantics (db : Store) (t t' : Nat) (n n' : Str)
    (c : Option Str) (hcase : keyFold n' = keyFold n) (ht : t' ≠ t)
    (habsent : FindDbObject db t' n = none) :
    FindDbObject (CreateDbObject db t n c).1 t n'
        = some (CreateDbObject db t n c).2
  ∧ FindDbObject (CreateDbObject db t n c).1 t' n = none
  ∧ (∀ o1 o2, objectDbEqualFunction o1 o2 = true →
      objectDbHashFunction o1 = objectDbHashFunction o2) := by
  have hpred : sameKey t n' = sameKey t n := funext fun o => sameKey_congr hcase o
  have habsent' : db.find? (sameKey t' n) = none := habsent
  refine ⟨?_, ?_, ?_⟩
  · rw [FindDbObject, hpred]
    cases hf : FindDbObject db t n with
    | none =>
      have hd : db.find? (sameKey t n) = none := hf
      rw [createDbObject_none_fst hf, createDbObject_none_snd hf]
      have hkey : sameKey t n
          (⟨t, n, c.getD [], 0, 0, 2 ^ 32 - 1, false, 0⟩ : DbObject) = true :=
        sameKey_self rfl rfl
      rw [find?_append_none _ hd, List.find?_cons, hkey]
    | some o =>
      have ho : sameKey t n o = true := List.find?_some hf
      cases c with
      | some cc =>
        rw [createDbObject_some_some_fst hf, createDbObject_some_some_snd hf]
        exact find?_setAtKey_self hf (by simpa [sameKey_setComment] using ho)
      | none =>
        rw [createDbObject_some_none_fst hf, createDbObject_some_none_snd hf]
        exact find?_setAtKey_self hf ho
  · rw [FindDbObject, List.find?_eq_none]
    intro x hx hsk
    have hx' : x.tag = t' := (sameKey_iff.mp hsk).1
    cases hf : FindDbObject db t n with
    | none =>
      rw [createDbObject_none_fst hf] at hx
      rcases List.mem_append.mp hx with hx | hx
      · exact absurd hsk (by simpa using List.find?_eq_none.mp habsent' x hx)
      · have hxe : x = ⟨t, n, c.getD [], 0, 0, 2 ^ 32 - 1, false, 0⟩ := by
          simpa using hx
        subst hxe
        have hxt : t = t' := hx'
        exact ht hxt.symm
    | some o =>
      have ho : sameKey t n o = true := List.find?_some hf
      have hotag : o.tag = t := (sameKey_iff.mp ho).1
      cases c with
      | some cc =>
        rw [createDbObject_some_some_fst hf] at hx
        rcases mem_setAtKey hx with hx | hxe
        · exact absurd hsk (by simpa using List.find?_eq_none.mp habsent' x hx)
        · subst hxe
          have hxt : o.tag = t' := hx'
          exact ht (hotag.symm.trans hxt).symm
      | none =>
        rw [createDbObject_some_none_fst hf] at hx
        rcases mem_setAtKey hx with hx | hxe
        · exact absurd hsk (by simpa using List.find?_eq_none.mp habsent' x hx)
        · subst hxe
          exact ht (hotag.symm.trans hx').symm
  · intro o1 o2 h12
    have hk := objectDbEqualFunction_iff.mp h12
    rw [keyOf, keyOf, Prod.mk.injEq] at hk
    obtain ⟨h1, h2⟩ := hk
    simp [objectDbHashFunction, phHashStringRef, h1, h2]

/-- Witness for C4: the spec's example, createOrUpdate(5, Foo) on the empty
store, then find(5, foo) returns the record and find(6, Foo) is absent. -/
theorem c4_witness :
    FindDbObject (CreateDbObject [] 5 "Foo".data none).1 5 "foo".data
        = some (CreateDbObject [] 5 "Foo".data none).2
  ∧ FindDbObject (CreateDbObject [] 5 "Foo".data none).1 6 "Foo".data = none
  ∧ (∀ o1 o2, objectDbEqualFunction o1 o2 = true →
      objectDbHashFunction o1 = objectDbHashFunction o2) :=
  c4_lookup_semantics [] 5 6 "Foo".data "foo".data none (by decide) (by decide)
    (by decide)

/-! ### loadElement characterization -/

theorem loadElement_other (db : Store) : loadElement db .other = db := rfl

theorem loadElement_skip_tag {attrs : List (Str × Str)} {body : Str}
    (db : Store) (h : (scanAttrs attrs).tag = none) :
    loadElement db (.element attrs body) = db := by
  simp only [loadElement]
  rw [h]

theorem loadElement_skip_name {attrs : List (Str × Str)} {body : Str}
    (db : Store) (h : (scanAttrs attrs).name = none) :
    loadElement db (.element attrs body) = db := by
  simp only [loadElement]
  rw [h]
  cases (scanAttrs attrs).tag <;> rfl

theorem loadElement_mat {attrs : List (Str × Str)} {body : Str} {tagS nameS : Str}
    (db : Store) (htag : (scanAttrs attrs).tag = some tagS)
    (hname : (scanAttrs attrs).name = some nameS) :
    loadElement db (.element attrs body)
      = setAtKey
          (CreateDbObject db (toULONG (PhStringToInteger64 tagS)) nameS
            (some body)).1
          (toULONG (PhStringToInteger64 tagS)) nameS
          (writeFields (scanAttrs attrs)
            (CreateDbObject db (toULONG (PhStringToInteger64 tagS)) nameS
              (some body)).2) := by
  simp only [loadElement]
  rw [htag, hname]

/-! ### The invariant is preserved by every operation -/

theorem storeUnique_createDbObject {db : Store} {t : Nat} {n : Str}
    {c : Option Str} (h : StoreUnique db) :
    StoreUnique (CreateDbObject db t n c).1 := by
  cases hf : FindDbObject db t n with
  | none =>
    rw [createDbObject_none_fst hf]
    exact storeUnique_append_fresh h
      (keyOf_not_mem_of_find?_none hf (sameKey_self rfl rfl))
  | some o =>
    have ho : sameKey t n o = true := List.find?_some hf
    cases c with
    | some cc =>
      rw [createDbObject_some_some_fst hf]
      exact storeUnique_setAtKey (by simpa [sameKey_setComment] using ho) h
    | none =>
      rw [createDbObject_some_none_fst hf]
      exact storeUnique_setAtKey ho h

theorem storeUnique_deleteDbObject {db : Store} (o : DbObject)
    (h : StoreUnique db) : StoreUnique (DeleteDbObject db o) := by
  rw [storeUnique_iff_nodup] at h ⊢
  exact List.Nodup.sublist (List.Sublist.map keyOf (List.eraseP_sublist db)) h

theorem storeUnique_loadElement {db : Store} (child : XmlChild)
    (h : StoreUnique db) : StoreUnique (loadElement db child) := by
  cases child with
  | other => exact h
  | element attrs body =>
    cases htag : (scanAttrs attrs).tag with
    | none => rw [loadElement_skip_tag db htag]; exact h
    | some tagS =>
      cases hname : (scanAttrs attrs).name with
      | none => rw [loadElement_skip_name db hname]; exact h
      | some nameS =>
        rw [loadElement_mat db htag hname]
        exact storeUnique_setAtKey
          (by rw [sameKey_writeFields]; exact sameKey_createDbObject_snd)
          (storeUnique_createDbObject h)

theorem storeUnique_foldl_loadElement {children : List XmlChild} :
    ∀ {db : Store}, StoreUnique db →
      StoreUnique (children.foldl loadElement db) := by
  induction children with
  | nil => intro db h; exact h
  | cons c rest ih =>
    intro db h
    exact ih (storeUnique_loadElement c h)

theorem storeUnique_LoadDb {doc : Option XmlNode} {db : Store}
    (h : StoreUnique db) : StoreUnique (LoadDb doc db).2 := by
  match doc with
  | none => exact h
  | some (.textNode s) => exact h
  | some (.element children) => exact storeUnique_foldl_loadElement h

/-- C3: key uniqueness is preserved by every store operation: starting from a
store in which no two live records share a key (equal tag and
case-insensitively equal name), CreateDbObject, DeleteDbObject and a full
LoadDb replay of any document (including documents holding two elements with
the same key or keys differing only in letter case) each yield a store with
the same property; the empty initial store has it trivially. -/
theorem c3_key_uniqueness_invariant (db : Store) (t : Nat) (n : Str)
    (c : Option Str) (o : DbObject) (doc : Option XmlNode)
    (h : StoreUnique db) :
    StoreUnique (CreateDbObject db t n c).1
  ∧ StoreUnique (DeleteDbObject db o)
  ∧ StoreUnique (LoadDb doc db).2
  ∧ StoreUnique [] :=
  ⟨storeUnique_createDbObject h, storeUnique_deleteDbObject o h,
   storeUnique_LoadDb h, rfl⟩

/-- Witness for C3: a concrete store, a create with a case-variant name, and a
document carrying two elements whose keys differ only in letter case. -/
theorem c3_witness :
    StoreUnique (CreateDbObject [⟨1, "ab".data, [], 0, 0, 0, false, 0⟩] 1
        "AB".data none).1
  ∧ StoreUnique (DeleteDbObject [⟨1, "ab".data, [], 0, 0, 0, false, 0⟩]
        ⟨1, "AB".data, [], 0, 0, 0, false, 0⟩)
  ∧ StoreUnique (LoadDb (some (.element
        [.element [("tag".data, "7".data), ("name".data, "foo".data)] [],
         .element [("tag".data, "7".data), ("name".data, "FOO".data)] []]))
        [⟨1, "ab".data, [], 0, 0, 0, false, 0⟩]).2
  ∧ StoreUnique [] :=
  c3_key_uniqueness_invariant [⟨1, "ab".data, [], 0, 0, 0, false, 0⟩] 1
    "AB".data none ⟨1, "AB".data, [], 0, 0, 0, false, 0⟩
    (some (.element
      [.element [("tag".data, "7".data), ("name".data, "foo".data)] [],
       .element [("tag".data, "7".data), ("name".data, "FOO".data)] []]))
    (by decide)

/-! ### The record found after processing one element -/

theorem setAtKey_setAtKey {db : Store} {t : Nat} {n : Str} {x : DbObject}
    (y : DbObject) (hx : sameKey t n x = true) :
    setAtKey (setAtKey db t n x) t n y = setAtKey db t n y := by
  induction db with
  | nil => rfl
  | cons z rest ih =>
    by_cases hz : sameKey t n z = true
    · rw [setAtKey, if_pos hz, setAtKey, if_pos hx, setAtKey, if_pos hz]
    · rw [setAtKey, if_neg hz, setAtKey, if_neg hz, setAtKey, if_neg hz, ih]

theorem find?_createDbObject_setAtKey {db : Store} {t : Nat} {n : Str}
    {c : Option Str} {w : DbObject} (hw : sameKey t n w = true) :
    (setAtKey (CreateDbObject db t n c).1 t n w).find? (sameKey t n)
      = some w := by
  cases hf : FindDbObject db t n with
  | none =>
    rw [createDbObject_none_fst hf]
    have hd : db.find? (sameKey t n) = none := hf
    have hobj : sameKey t n
        (⟨t, n, c.getD [], 0, 0, 2 ^ 32 - 1, false, 0⟩ : DbObject) = true :=
      sameKey_self rfl rfl
    rw [setAtKey_append_none _ _ hd, setAtKey, if_pos hobj,
      find?_append_none _ hd, List.find?_cons, hw]
  | some o =>
    have hkey2 : sameKey t n (CreateDbObject db t n c).2 = true :=
      sameKey_createDbObject_snd
    cases c with
    | some cc =>
      rw [createDbObject_some_some_fst hf]
      rw [createDbObject_some_some_snd hf] at hkey2
      rw [setAtKey_setAtKey w hkey2]
      exact find?_setAtKey_self hf hw
    | none =>
      rw [createDbObject_some_none_fst hf]
      rw [createDbObject_some_none_snd hf] at hkey2
      rw [setAtKey_setAtKey w hkey2]
      exact find?_setAtKey_self hf hw

theorem find_loadElement {attrs : List (Str × Str)} {body tagS nameS : Str}
    (db : Store) (htag : (scanAttrs attrs).tag = some tagS)
    (hname : (scanAttrs attrs).name = some nameS) :
    FindDbObject (loadElement db (.element attrs body))
        (toULONG (PhStringToInteger64 tagS)) nameS
      = some (writeFields (scanAttrs attrs)
          (CreateDbObject db (toULONG (PhStringToInteger64 tagS)) nameS
            (some body)).2) := by
  rw [loadElement_mat db htag hname, FindDbObject]
  exact find?_createDbObject_setAtKey
    (by rw [sameKey_writeFields]; exact sameKey_createDbObject_snd)

theorem writeFields_backColor_none {s : ScanState} (o : DbObject)
    (h : s.backColor = none) : (writeFields s o).backColor = o.backColor := by
  simp [writeFields, h]

theorem writeFields_backColor_some {s : ScanState} (o : DbObject) {v : Str}
    (h : s.backColor = some v) :
    (writeFields s o).backColor = toULONG (PhStringToInteger64 v) := by
  simp [writeFields, h]

/-- C6: decode treats an absent backcolor attribute differently from an
unparseable one.  For an element with tag and name bound, if backcolor is
absent the materialized record (created fresh under its key) keeps the
construction-time sentinel 2 ^ 32 - 1; if backcolor is present but its text is
not a valid decimal integer, the record's backColor is overwritten with 0. -/
theorem c6_backcolor_asymmetry (attrs : List (Str × Str)) (body : Str)
    (db : Store) (tagS nameS : Str)
    (htag : (scanAttrs attrs).tag = some tagS)
    (hname : (scanAttrs attrs).name = some nameS) :
    ((scanAttrs attrs).backColor = none →
      FindDbObject db (toULONG (PhStringToInteger64 tagS)) nameS = none →
      ∃ o, FindDbObject (loadElement db (.element attrs body))
            (toULONG (PhStringToInteger64 tagS)) nameS = some o
        ∧ o.backColor = 2 ^ 32 - 1)
  ∧ (∀ v, (scanAttrs attrs).backColor = some v →
      ¬(v ≠ [] ∧ v.all isDecimalDigit ∧ digitsToNat v < 2 ^ 64) →
      ∃ o, FindDbObject (loadElement db (.element attrs body))
            (toULONG (PhStringToInteger64 tagS)) nameS = some o
        ∧ o.backColor = 0) := by
  constructor
  · intro hbc hf
    refine ⟨_, find_loadElement db htag hname, ?_⟩
    rw [writeFields_backColor_none _ hbc, createDbObject_none_snd hf]
  · intro v hbc hinv
    refine ⟨_, find_loadElement db htag hname, ?_⟩
    rw [writeFields_backColor_some _ hbc, PhStringToInteger64, if_neg hinv]
    decide

/-- Witness for C6: the element (tag 1, name x) without backcolor keeps the
sentinel; with backcolor equal to the text notanumber the color becomes 0. -/
theorem c6_witness :
    (∃ o, FindDbObject (loadElement []
        (.element [("tag".data, "1".data), ("name".data, "x".data)] []))
        (toULONG (PhStringToInteger64 "1".data)) "x".data = some o
      ∧ o.backColor = 2 ^ 32 - 1)
  ∧ (∃ o, FindDbObject (loadElement []
        (.element [("tag".data, "1".data), ("name".data, "x".data),
                   ("backcolor".data, "notanumber".data)] "c".data))
        (toULONG (PhStringToInteger64 "1".data)) "x".data = some o
      ∧ o.backColor = 0) :=
  ⟨(c6_backcolor_asymmetry [("tag".data, "1".data), ("name".data, "x".data)]
      [] [] "1".data "x".data (by decide) (by decide)).1 (by decide) (by decide),
   (c6_backcolor_asymmetry
      [("tag".data, "1".data), ("name".data, "x".data),
       ("backcolor".data, "notanumber".data)] "c".data [] "1".data "x".data
      (by decide) (by decide)).2 "notanumber".data (by decide) (by decide)⟩

/-! ### Round trip: loading what SaveDb wrote -/

theorem scanAttrs_seven (v1 v2 v3 v4 v5 v6 v7 : Str) :
    scanAttrs [("tag".data, v1), ("name".data, v2), ("priorityclass".data, v3),
               ("iopriorityplusone".data, v4), ("backcolor".data, v5),
               ("collapse".data, v6), ("affinity".data, v7)]
      = { tag := some v1, name := some v2, priorityClass := some v3,
          ioPriorityPlusOne := some v4, backColor := some v5,
          collapse := some v6, affinityMask := some v7 } := rfl

theorem roundtrip_parse {m : Nat} (h : m < 2 ^ 32) :
    toULONG (PhStringToInteger64 (FormatValueToUtf8 m)) = m := by
  rw [toULONG, parse_format (lt_trans h (by norm_num))]
  exact Nat.mod_eq_of_lt h

theorem loadElement_save {acc : Store} {o : DbObject} (hwf : o.WellFormed)
    (hfr : acc.find? (sameKey o.tag o.name) = none) :
    loadElement acc (saveObjectNode o) = acc ++ [o] := by
  obtain ⟨h1, h2, h3, h4, h5⟩ := hwf
  have hsc := scanAttrs_seven (FormatValueToUtf8 o.tag) o.name
    (FormatValueToUtf8 o.priorityClass) (FormatValueToUtf8 o.ioPriorityPlusOne)
    (FormatValueToUtf8 o.backColor)
    (FormatValueToUtf8 (if o.collapse then 1 else 0))
    (FormatValueToUtf8 o.affinityMask)
  simp only [saveObjectNode, loadElement, hsc]
  rw [roundtrip_parse h1]
  have hf : FindDbObject acc o.tag o.name = none := hfr
  rw [createDbObject_none_fst hf, createDbObject_none_snd hf]
  simp only [Option.getD_some]
  have hobj : sameKey o.tag o.name
      (⟨o.tag, o.name, o.comment, 0, 0, 2 ^ 32 - 1, false, 0⟩ : DbObject)
      = true := sameKey_self rfl rfl
  rw [setAtKey_append_none _ _ hfr, setAtKey, if_pos hobj]
  have haff : toULONGPTR
      (PhStringToInteger64 (FormatValueToUtf8 o.affinityMask))
      = o.affinityMask := by
    rw [toULONGPTR, parse_format h5]
    exact Nat.mod_eq_of_lt h5
  have hcol : (PhStringToInteger64
      (FormatValueToUtf8 (if o.collapse then 1 else 0)) != 0) = o.collapse := by
    cases o.collapse <;> decide
  have hw : writeFields
      { tag := some (FormatValueToUtf8 o.tag), name := some o.name,
        priorityClass := some (FormatValueToUtf8 o.priorityClass),
        ioPriorityPlusOne := some (FormatValueToUtf8 o.ioPriorityPlusOne),
        backColor := some (FormatValueToUtf8 o.backColor),
        collapse := some (FormatValueToUtf8 (if o.collapse then 1 else 0)),
        affinityMask := some (FormatValueToUtf8 o.affinityMask) }
      ⟨o.tag, o.name, o.comment, 0, 0, 2 ^ 32 - 1, false, 0⟩ = o := by
    simp only [writeFields, Option.map_some', Option.getD_some]
    rw [roundtrip_parse h2, roundtrip_parse h3, roundtrip_parse h4, haff, hcol]
  rw [hw]

theorem load_save_aux : ∀ (db acc : Store),
    (∀ o ∈ db, o.WellFormed) →
    (∀ o ∈ db, ∀ a ∈ acc, keyOf o ≠ keyOf a) →
    (db.map keyOf).Nodup →
    List.foldl loadElement acc (db.map saveObjectNode) = acc ++ db := by
  intro db
  induction db with
  | nil =>
    intro acc _ _ _
    simp
  | cons o rest ih =>
    intro acc hwf hfresh hnd
    have hfr : acc.find? (sameKey o.tag o.name) = none := by
      rw [List.find?_eq_none]
      intro a ha hsk
      exact hfresh o (List.mem_cons_self o rest) a ha
        (keyOf_eq_of_sameKey (sameKey_self rfl rfl) hsk)
    have hnd' := hnd
    rw [List.map_cons, List.nodup_cons] at hnd'
    have hwf' : ∀ x ∈ rest, x.WellFormed :=
      fun x hx => hwf x (List.mem_cons_of_mem o hx)
    have hfresh' : ∀ x ∈ rest, ∀ a ∈ acc ++ [o], keyOf x ≠ keyOf a := by
      intro x hx a ha
      rcases List.mem_append.mp ha with ha | ha
      · exact hfresh x (List.mem_cons_of_mem o hx) a ha
      · have hao : a = o := by simpa using ha
        subst hao
        intro he
        exact hnd'.1 (List.mem_map.mpr ⟨x, hx, he⟩)
    rw [List.map_cons, List.foldl_cons,
      loadElement_save (hwf o (List.mem_cons_self o rest)) hfr,
      ih (acc ++ [o]) hwf' hfresh' hnd'.2, List.append_assoc]
    rfl

/-- C1: round trip through the codec.  For every store of records whose fields
fit their machine widths (including records with the sentinel backColor and a
zero affinityMask) and whose keys are pairwise distinct, encoding with SaveDb
and decoding the resulting document with LoadDb into a fresh empty store
succeeds and reproduces the store record for record (hence also as a set). -/
theorem c1_load_save_roundtrip (db : Store)
    (hwf : ∀ o ∈ db, o.WellFormed) (huniq : StoreUnique db) :
    LoadDb (some (SaveDb db)) [] = (NtStatus.success, db) := by
  have hrun : LoadDb (some (.element (db.map saveObjectNode))) []
      = (NtStatus.success, List.foldl loadElement [] (db.map saveObjectNode)) :=
    rfl
  rw [SaveDb, hrun,
    load_save_aux db [] hwf (by simp) (storeUnique_iff_nodup.mp huniq)]
  rfl

/-- Witness for C1: a two-record store holding the sentinel backColor, a zero
affinityMask, and records differing only in name (same tag). -/
theorem c1_witness :
    LoadDb (some (SaveDb
        [⟨1, "Foo".data, "hello".data, 2, 3, 2 ^ 32 - 1, true, 0⟩,
         ⟨1, "Bar".data, [], 0, 0, 7, false, 12⟩])) []
      = (NtStatus.success,
         [⟨1, "Foo".data, "hello".data, 2, 3, 2 ^ 32 - 1, true, 0⟩,
          ⟨1, "Bar".data, [], 0, 0, 7, false, 12⟩]) :=
  c1_load_save_roundtrip
    [⟨1, "Foo".data, "hello".data, 2, 3, 2 ^ 32 - 1, true, 0⟩,
     ⟨1, "Bar".data, [], 0, 0, 7, false, 12⟩]
    (by decide) (by decide)

/-! ### Attribute-name matching (C7) -/

theorem phEqualBytesZ_keyFold_congr {n n' : Str} (h : keyFold n = keyFold n')
    (k : Str) : phEqualBytesZ n k true = phEqualBytesZ n' k true := by
  simp [phEqualBytesZ, phEqualStringRef, h]

theorem scanAttr_dispatch (s : ScanState) (n v : Str) :
    scanAttr s (n, v) = match fieldOf n with
      | some .tag => { s with tag := some v }
      | some .name => { s with name := some v }
      | some .priorityClass => { s with priorityClass := some v }
      | some .ioPriorityPlusOne => { s with ioPriorityPlusOne := some v }
      | some .backColor => { s with backColor := some v }
      | some .collapse => { s with collapse := some v }
      | some .affinityMask => { s with affinityMask := some v }
      | none => s := by
  simp only [scanAttr, fieldOf]
  split_ifs <;> rfl

theorem scanAttr_congr_name (s : ScanState) (n n' v : Str)
    (h : keyFold n = keyFold n') : scanAttr s (n, v) = scanAttr s (n', v) := by
  simp only [scanAttr, phEqualBytesZ_keyFold_congr h]

theorem scanAttr_unrecognized (s : ScanState) (n v : Str)
    (h : fieldOf n = none) : scanAttr s (n, v) = s := by
  rw [scanAttr_dispatch, h]

theorem scanAttr_comm (s : ScanState) (na va nb vb : Str)
    (h : fieldOf na = none ∨ fieldOf na ≠ fieldOf nb) :
    scanAttr (scanAttr s (na, va)) (nb, vb)
      = scanAttr (scanAttr s (nb, vb)) (na, va) := by
  simp only [scanAttr_dispatch]
  cases hfa : fieldOf na with
  | none => rfl
  | some fa =>
    cases hfb : fieldOf nb with
    | none => rfl
    | some fb =>
      cases fa <;> cases fb <;> try rfl
      all_goals
        rcases h with h | h
        · rw [hfa] at h
          cases h
        · rw [hfa, hfb] at h
          exact absurd rfl h

theorem scanAttrs_perm {attrs attrs' : List (Str × Str)}
    (hp : attrs.Perm attrs')
    (hc : attrs.Pairwise fun a b =>
      fieldOf a.1 = none ∨ fieldOf a.1 ≠ fieldOf b.1) :
    scanAttrs attrs = scanAttrs attrs' := by
  have hlen : attrs.length = attrs'.length := hp.length_eq
  rw [scanAttrs, scanAttrs, ← hlen]
  by_cases h2 : attrs.length ≥ 2
  · rw [if_pos h2, if_pos h2]
    have hR : attrs.Pairwise fun a b => ∀ z : ScanState,
        scanAttr (scanAttr z a) b = scanAttr (scanAttr z b) a := by
      refine hc.imp fun {a b} hab => ?_
      obtain ⟨na, va⟩ := a
      obtain ⟨nb, vb⟩ := b
      intro z
      exact scanAttr_comm z na va nb vb hab
    have hsym : Symmetric (fun a b : Str × Str => ∀ z : ScanState,
        scanAttr (scanAttr z a) b = scanAttr (scanAttr z b) a) :=
      fun a b hab z => (hab z).symm
    refine hp.foldl_eq' ?_ ({} : ScanState)
    intro x hx y hy z
    by_cases hxy : x = y
    · subst hxy
      rfl
    · exact List.Pairwise.forall hsym hR hx hy hxy z
  · rw [if_neg h2, if_neg h2]

/-- C7 counterexample: the claim says an attribute named Tag (different letter
case) does not bind to the tag field, so this element would be skipped and the
store left empty; in the code the PhEqualBytesZ calls pass TRUE for
IgnoreCase, so Tag binds and a record is materialized. -/
theorem c7_counterexample :
    (LoadDb (some (.element [.element
        [("Tag".data, "1".data), ("name".data, "x".data)] "c".data])) []).2
      = [⟨1, "x".data, "c".data, 0, 0, 2 ^ 32 - 1, false, 0⟩]
  ∧ (LoadDb (some (.element [.element
        [("Tag".data, "1".data), ("name".data, "x".data)] "c".data])) []).2
      ≠ [] := by
  decide

/-- C7 amended: during decode the named fields are matched case-INsensitively
(an attribute name equal to one of the seven up to letter case binds to that
field), they may appear in any order (scanning is invariant under permutation
when no two attributes bind the same field), and an attribute whose name
matches none of the seven fields is ignored. -/
theorem c7_attr_matching_amended :
    (∀ (s : ScanState) (n n' v : Str), keyFold n = keyFold n' →
      scanAttr s (n, v) = scanAttr s (n', v))
  ∧ (∀ (s : ScanState) (n v : Str), fieldOf n = none → scanAttr s (n, v) = s)
  ∧ (∀ attrs attrs' : List (Str × Str), attrs.Perm attrs' →
      (attrs.Pairwise fun a b =>
        fieldOf a.1 = none ∨ fieldOf a.1 ≠ fieldOf b.1) →
      scanAttrs attrs = scanAttrs attrs')
  ∧ scanAttr {} ("Tag".data, "1".data) = { tag := some "1".data } :=
  ⟨fun s n n' v h => scanAttr_congr_name s n n' v h,
   fun s n v h => scanAttr_unrecognized s n v h,
   fun _ _ hp hc => scanAttrs_perm hp hc,
   by decide⟩

/-- Witness for C7 amended: scanning is order-independent on a concrete
two-attribute element whose names bind distinct fields. -/
theorem c7_witness :
    scanAttrs [("name".data, "x".data), ("tag".data, "1".data)]
      = scanAttrs [("tag".data, "1".data), ("name".data, "x".data)] :=
  c7_attr_matching_amended.2.2.1
    [("name".data, "x".data), ("tag".data, "1".data)]
    [("tag".data, "1".data), ("name".data, "x".data)]
    (List.Perm.swap ("tag".data, "1".data) ("name".data, "x".data) [])
    (by decide)

/-! ### Integer parsing during decode (C8) -/

theorem writeFields_priorityClass (s : ScanState) (o : DbObject) :
    (writeFields s o).priorityClass
      = ((s.priorityClass.map PhStringToInteger64).getD 0) % 2 ^ 32 := rfl

theorem writeFields_ioPriorityPlusOne (s : ScanState) (o : DbObject) :
    (writeFields s o).ioPriorityPlusOne
      = ((s.ioPriorityPlusOne.map PhStringToInteger64).getD 0) % 2 ^ 32 := rfl

/-- C8 counterexample: the claim says a tag value of 2 ^ 32 or more decodes to
0, not to a wrapped value; decoding tag 4294967301 = 2 ^ 32 + 5 materializes a
record with tag 5: the (ULONG) cast truncates the parsed 64-bit value modulo
2 ^ 32. -/
theorem c8_counterexample :
    (LoadDb (some (.element [.element
        [("tag".data, "4294967301".data), ("name".data, "x".data)] []])) []).2
      = [⟨5, "x".data, [], 0, 0, 2 ^ 32 - 1, false, 0⟩] := by
  decide

/-- C8 amended: present integer attributes are parsed as unsigned base-10
64-bit values, with non-numeric or out-of-64-bit-range text folding to 0
rather than failing the decode; the parsed value is then truncated modulo
2 ^ 32 into the 32-bit fields (so 2 ^ 32 decodes to 0 but 2 ^ 32 + 5 decodes
to 5, a wrapped value). -/
theorem c8_integer_parsing_amended (s : Str) (attrs : List (Str × Str))
    (body : Str) (db : Store) (tagS nameS : Str)
    (htag : (scanAttrs attrs).tag = some tagS)
    (hname : (scanAttrs attrs).name = some nameS) :
    (¬(s ≠ [] ∧ s.all isDecimalDigit ∧ digitsToNat s < 2 ^ 64) →
      PhStringToInteger64 s = 0)
  ∧ (∃ o, FindDbObject (loadElement db (.element attrs body))
        (toULONG (PhStringToInteger64 tagS)) nameS = some o
      ∧ o.tag = PhStringToInteger64 tagS % 2 ^ 32
      ∧ o.priorityClass
          = ((scanAttrs attrs).priorityClass.map PhStringToInteger64).getD 0
              % 2 ^ 32
      ∧ o.ioPriorityPlusOne
          = ((scanAttrs attrs).ioPriorityPlusOne.map
              PhStringToInteger64).getD 0 % 2 ^ 32) := by
  constructor
  · intro h
    rw [PhStringToInteger64, if_neg h]
  · refine ⟨_, find_loadElement db htag hname, ?_, ?_, ?_⟩
    · rw [writeFields_tag]
      exact (sameKey_iff.mp
        (@sameKey_createDbObject_snd db (toULONG (PhStringToInteger64 tagS))
          nameS (some body))).1
    · rw [writeFields_priorityClass]
    · rw [writeFields_ioPriorityPlusOne]

/-- Witness for C8 amended: the text notanumber parses to 0, and decoding the
element with tag 4294967301 yields the truncated tag value. -/
theorem c8_witness :
    (¬(("notanumber".data : Str) ≠ []
        ∧ "notanumber".data.all isDecimalDigit
        ∧ digitsToNat "notanumber".data < 2 ^ 64) →
      PhStringToInteger64 "notanumber".data = 0)
  ∧ (∃ o, FindDbObject (loadElement []
        (.element [("tag".data, "4294967301".data), ("name".data, "x".data)]
          []))
        (toULONG (PhStringToInteger64 "4294967301".data)) "x".data = some o
      ∧ o.tag = PhStringToInteger64 "4294967301".data % 2 ^ 32
      ∧ o.priorityClass
          = ((scanAttrs [("tag".data, "4294967301".data),
              ("name".data, "x".data)]).priorityClass.map
                PhStringToInteger64).getD 0 % 2 ^ 32
      ∧ o.ioPriorityPlusOne
          = ((scanAttrs [("tag".data, "4294967301".data),
              ("name".data, "x".data)]).ioPriorityPlusOne.map
                PhStringToInteger64).getD 0 % 2 ^ 32) :=
  c8_integer_parsing_amended "notanumber".data
    [("tag".data, "4294967301".data), ("name".data, "x".data)] [] []
    "4294967301".data "x".data (by decide) (by decide)

/-! ### Idempotence of decode (C10): the per-record rewrite -/

/-- The record CreateDbObject builds for a fresh key before LoadDb's field
assignments run (comment empty here; LoadDb always passes the body text). -/
def freshObj (t : Nat) (n : Str) : DbObject :=
  ⟨t, n, [], 0, 0, 2 ^ 32 - 1, false, 0⟩

/-- What one materialized element does to the record under its key: the
comment is replaced by the body text and the scanned fields are applied. -/
def recW (s : ScanState) (b : Str) (o : DbObject) : DbObject :=
  writeFields s { o with comment := b }

theorem recW_tag (s : ScanState) (b : Str) (o : DbObject) :
    (recW s b o).tag = o.tag := rfl

theorem recW_name (s : ScanState) (b : Str) (o : DbObject) :
    (recW s b o).name = o.name := rfl

theorem recW_comment (s : ScanState) (b : Str) (o : DbObject) :
    (recW s b o).comment = b := rfl

theorem sameKey_recW {t : Nat} {n : Str} (s : ScanState) (b : Str)
    (o : DbObject) : sameKey t n (recW s b o) = sameKey t n o := rfl

theorem recW_priorityClass (s : ScanState) (b : Str) (o : DbObject) :
    (recW s b o).priorityClass
      = ((s.priorityClass.map PhStringToInteger64).getD 0) % 2 ^ 32 := rfl

theorem recW_ioPriorityPlusOne (s : ScanState) (b : Str) (o : DbObject) :
    (recW s b o).ioPriorityPlusOne
      = ((s.ioPriorityPlusOne.map PhStringToInteger64).getD 0) % 2 ^ 32 := rfl

theorem recW_backColor_none {s : ScanState} {b : Str} (o : DbObject)
    (h : s.backColor = none) : (recW s b o).backColor = o.backColor :=
  writeFields_backColor_none _ h

theorem recW_backColor_some {s : ScanState} {b : Str} (o : DbObject) {v : Str}
    (h : s.backColor = some v) :
    (recW s b o).backColor = toULONG (PhStringToInteger64 v) :=
  writeFields_backColor_some _ h

theorem recW_collapse_none {s : ScanState} {b : Str} (o : DbObject)
    (h : s.collapse = none) : (recW s b o).collapse = o.collapse := by
  simp [recW, writeFields, h]

theorem recW_collapse_some {s : ScanState} {b : Str} (o : DbObject) {v : Str}
    (h : s.collapse = some v) :
    (recW s b o).collapse = (PhStringToInteger64 v != 0) := by
  simp [recW, writeFields, h]

theorem recW_affinity_none {s : ScanState} {b : Str} (o : DbObject)
    (h : s.affinityMask = none) :
    (recW s b o).affinityMask = o.affinityMask := by
  simp [recW, writeFields, h]

theorem recW_affinity_some {s : ScanState} {b : Str} (o : DbObject) {v : Str}
    (h : s.affinityMask = some v) :
    (recW s b o).affinityMask = toULONGPTR (PhStringToInteger64 v) := by
  simp [recW, writeFields, h]

theorem recW_idem (s : ScanState) (b : Str) (o : DbObject) :
    recW s b (recW s b o) = recW s b o := by
  ext : 1
  · rw [recW_tag, recW_tag]
  · rw [recW_name, recW_name]
  · rw [recW_comment, recW_comment]
  · rw [recW_priorityClass, recW_priorityClass]
  · rw [recW_ioPriorityPlusOne, recW_ioPriorityPlusOne]
  · cases h : s.backColor with
    | none => rw [recW_backColor_none _ h, recW_backColor_none _ h]
    | some v => rw [recW_backColor_some _ h, recW_backColor_some _ h]
  · cases h : s.collapse with
    | none => rw [recW_collapse_none _ h, recW_collapse_none _ h]
    | some v => rw [recW_collapse_some _ h, recW_collapse_some _ h]
  · cases h : s.affinityMask with
    | none => rw [recW_affinity_none _ h, recW_affinity_none _ h]
    | some v => rw [recW_affinity_some _ h, recW_affinity_some _ h]

theorem recW_congr {s : ScanState} {b : Str} {x y : DbObject}
    (hxy : recW s b x = recW s b y) (s2 : ScanState) (b2 : Str) :
    recW s b (recW s2 b2 x) = recW s b (recW s2 b2 y) := by
  ext : 1
  · rw [recW_tag, recW_tag, recW_tag, recW_tag]
    have h := congrArg DbObject.tag hxy
    rwa [recW_tag, recW_tag] at h
  · rw [recW_name, recW_name, recW_name, recW_name]
    have h := congrArg DbObject.name hxy
    rwa [recW_name, recW_name] at h
  · rw [recW_comment, recW_comment]
  · rw [recW_priorityClass, recW_priorityClass]
  · rw [recW_ioPriorityPlusOne, recW_ioPriorityPlusOne]
  · cases h : s.backColor with
    | some v => rw [recW_backColor_some _ h, recW_backColor_some _ h]
    | none =>
      rw [recW_backColor_none _ h, recW_backColor_none _ h]
      cases h2 : s2.backColor with
      | some v => rw [recW_backColor_some _ h2, recW_backColor_some _ h2]
      | none =>
        rw [recW_backColor_none _ h2, recW_backColor_none _ h2]
        have hb := congrArg DbObject.backColor hxy
        rwa [recW_backColor_none _ h, recW_backColor_none _ h] at hb
  · cases h : s.collapse with
    | some v => rw [recW_collapse_some _ h, recW_collapse_some _ h]
    | none =>
      rw [recW_collapse_none _ h, recW_collapse_none _ h]
      cases h2 : s2.collapse with
      | some v => rw [recW_collapse_some _ h2, recW_collapse_some _ h2]
      | none =>
        rw [recW_collapse_none _ h2, recW_collapse_none _ h2]
        have hb := congrArg DbObject.collapse hxy
        rwa [recW_collapse_none _ h, recW_collapse_none _ h] at hb
  · cases h : s.affinityMask with
    | some v => rw [recW_affinity_some _ h, recW_affinity_some _ h]
    | none =>
      rw [recW_affinity_none _ h, recW_affinity_none _ h]
      cases h2 : s2.affinityMask with
      | some v => rw [recW_affinity_some _ h2, recW_affinity_some _ h2]
      | none =>
        rw [recW_affinity_none _ h2, recW_affinity_none _ h2]
        have hb := congrArg DbObject.affinityMask hxy
        rwa [recW_affinity_none _ h, recW_affinity_none _ h] at hb

/-! ### C10: keys of elements and the two shapes of loadElement -/

/-- The key an element materializes under, when tag and name are both bound. -/
def elemKey : XmlChild → Option (Nat × Str)
  | .element attrs _ =>
    match (scanAttrs attrs).tag, (scanAttrs attrs).name with
    | some tagS, some nameS =>
      some (toULONG (PhStringToInteger64 tagS), nameS)
    | _, _ => none
  | .other => none

theorem elemKey_some {c : XmlChild} {t : Nat} {n : Str}
    (h : elemKey c = some (t, n)) :
    ∃ attrs body tagS, c = .element attrs body
      ∧ (scanAttrs attrs).tag = some tagS
      ∧ (scanAttrs attrs).name = some n
      ∧ t = toULONG (PhStringToInteger64 tagS) := by
  cases c with
  | other => cases h
  | element attrs body =>
    rw [elemKey] at h
    cases htag : (scanAttrs attrs).tag with
    | none => rw [htag] at h; cases h
    | some tagS =>
      cases hname : (scanAttrs attrs).name with
      | none => rw [htag, hname] at h; cases h
      | some nameS =>
        rw [htag, hname] at h
        simp only [Option.some.injEq, Prod.mk.injEq] at h
        exact ⟨attrs, body, tagS, rfl, htag, h.2 ▸ hname, h.1.symm⟩

theorem loadElement_none {c : XmlChild} (db : Store) (h : elemKey c = none) :
    loadElement db c = db := by
  cases c with
  | other => rfl
  | element attrs body =>
    rw [elemKey] at h
    cases htag : (scanAttrs attrs).tag with
    | none => exact loadElement_skip_tag db htag
    | some tagS =>
      cases hname : (scanAttrs attrs).name with
      | none => exact loadElement_skip_name db hname
      | some nameS => rw [htag, hname] at h; cases h

theorem loadElement_found {attrs : List (Str × Str)} {body tagS nameS : Str}
    {db : Store} {o : DbObject}
    (htag : (scanAttrs attrs).tag = some tagS)
    (hname : (scanAttrs attrs).name = some nameS)
    (hf : FindDbObject db (toULONG (PhStringToInteger64 tagS)) nameS
      = some o) :
    loadElement db (.element attrs body)
      = setAtKey db (toULONG (PhStringToInteger64 tagS)) nameS
          (recW (scanAttrs attrs) body o) := by
  have ho : sameKey (toULONG (PhStringToInteger64 tagS)) nameS o = true :=
    List.find?_some hf
  rw [loadElement_mat db htag hname, createDbObject_some_some_fst hf,
    createDbObject_some_some_snd hf]
  exact setAtKey_setAtKey _ (by simpa [sameKey_setComment] using ho)

theorem loadElement_notfound {attrs : List (Str × Str)} {body tagS nameS : Str}
    {db : Store} (htag : (scanAttrs attrs).tag = some tagS)
    (hname : (scanAttrs attrs).name = some nameS)
    (hf : FindDbObject db (toULONG (PhStringToInteger64 tagS)) nameS = none) :
    loadElement db (.element attrs body)
      = db ++ [recW (scanAttrs attrs) body
          (freshObj (toULONG (PhStringToInteger64 tagS)) nameS)] := by
  have hd : db.find? (sameKey (toULONG (PhStringToInteger64 tagS)) nameS)
      = none := hf
  have hobj : sameKey (toULONG (PhStringToInteger64 tagS)) nameS
      (⟨toULONG (PhStringToInteger64 tagS), nameS, (some body).getD [], 0, 0,
        2 ^ 32 - 1, false, 0⟩ : DbObject) = true := sameKey_self rfl rfl
  rw [loadElement_mat db htag hname, createDbObject_none_fst hf,
    createDbObject_none_snd hf, setAtKey_append_none _ _ hd, setAtKey,
    if_pos hobj]
  rfl

/-! ### C10: presence of keys is monotone along a load -/

theorem find_isSome_loadElement (c : XmlChild) (db : Store) (t' : Nat)
    (n' : Str) (h : (FindDbObject db t' n').isSome = true) :
    (FindDbObject (loadElement db c) t' n').isSome = true := by
  cases hk : elemKey c with
  | none => rwa [loadElement_none db hk]
  | some tn =>
    obtain ⟨t, n⟩ := tn
    obtain ⟨attrs, body, tagS, rfl, htag, hname, rfl⟩ := elemKey_some hk
    cases hf : FindDbObject db (toULONG (PhStringToInteger64 tagS)) n with
    | some o =>
      rw [loadElement_found htag hname hf, FindDbObject,
        find?_isSome_setAtKey
          (by rw [sameKey_recW]; exact List.find?_some hf)]
      exact h
    | none =>
      obtain ⟨a, ha⟩ := Option.isSome_iff_exists.mp h
      have ha' : db.find? (sameKey t' n') = some a := ha
      rw [loadElement_notfound htag hname hf, FindDbObject,
        find?_append_some ha']
      rfl

theorem foldl_find_isSome (L : List XmlChild) : ∀ (db : Store) (t' : Nat)
    (n' : Str), (FindDbObject db t' n').isSome = true →
    (FindDbObject (List.foldl loadElement db L) t' n').isSome = true := by
  induction L with
  | nil => intro db t' n' h; exact h
  | cons c rest ih =>
    intro db t' n' h
    exact ih (loadElement db c) t' n' (find_isSome_loadElement c db t' n' h)

theorem foldl_covers (L : List XmlChild) : ∀ (db : Store) (c : XmlChild),
    c ∈ L → ∀ (t : Nat) (n : Str), elemKey c = some (t, n) →
    (FindDbObject (List.foldl loadElement db L) t n).isSome = true := by
  induction L with
  | nil => intro db c hc; cases hc
  | cons d rest ih =>
    intro db c hc t n hk
    rcases List.mem_cons.mp hc with rfl | hc
    · have h1 : (FindDbObject (loadElement db c) t n).isSome = true := by
        obtain ⟨attrs, body, tagS, rfl, htag, hname, rfl⟩ := elemKey_some hk
        cases hf : FindDbObject db (toULONG (PhStringToInteger64 tagS)) n with
        | some o =>
          rw [loadElement_found htag hname hf, FindDbObject,
            find?_isSome_setAtKey
              (by rw [sameKey_recW]; exact List.find?_some hf)]
          have hf' : db.find? (sameKey (toULONG (PhStringToInteger64 tagS)) n)
              = some o := hf
          rw [hf']
          rfl
        | none =>
          have hf' : db.find? (sameKey (toULONG (PhStringToInteger64 tagS)) n)
              = none := hf
          have hw : sameKey (toULONG (PhStringToInteger64 tagS)) n
              (recW (scanAttrs attrs) body
                (freshObj (toULONG (PhStringToInteger64 tagS)) n)) = true := by
            rw [sameKey_recW]
            exact sameKey_self rfl rfl
          rw [loadElement_notfound htag hname hf, FindDbObject,
            find?_append_none _ hf', List.find?_cons, hw]
          rfl
      exact foldl_find_isSome rest (loadElement db c) t n h1
    · exact ih (loadElement db d) c hc t n hk

theorem foldl_append_foreign (L : List XmlChild) : ∀ (db : Store)
    (r : DbObject),
    (∀ c ∈ L, ∀ (t : Nat) (n : Str), elemKey c = some (t, n) →
      (FindDbObject db t n).isSome = true) →
    List.foldl loadElement (db ++ [r]) L
      = List.foldl loadElement db L ++ [r] := by
  induction L with
  | nil => intro db r _; rfl
  | cons c rest ih =>
    intro db r h
    rw [List.foldl_cons, List.foldl_cons]
    have hc : loadElement (db ++ [r]) c = loadElement db c ++ [r] := by
      cases hk : elemKey c with
      | none => rw [loadElement_none _ hk, loadElement_none db hk]
      | some tn =>
        obtain ⟨t, n⟩ := tn
        obtain ⟨attrs, body, tagS, rfl, htag, hname, rfl⟩ := elemKey_some hk
        obtain ⟨o, hf⟩ := Option.isSome_iff_exists.mp
          (h _ (List.mem_cons_self _ _) _ _ hk)
        have hf' : db.find? (sameKey (toULONG (PhStringToInteger64 tagS)) n)
            = some o := hf
        have hf2 : FindDbObject (db ++ [r])
            (toULONG (PhStringToInteger64 tagS)) n = some o := by
          rw [FindDbObject, find?_append_some hf']
        rw [loadElement_found htag hname hf, loadElement_found htag hname hf2]
        exact setAtKey_append_some _ hf'
    rw [hc]
    refine ih (loadElement db c) r ?_
    intro d hd t n hk
    exact find_isSome_loadElement c db t n (h d (List.mem_cons_of_mem c hd) t n hk)

/-! ### C10: stores that differ only at one key, invisibly to that key's
element -/

theorem sameKey_pred_eq {t t2 : Nat} {n n2 : Str} {x : DbObject}
    (h1 : sameKey t n x = true) (h2 : sameKey t2 n2 x = true) :
    sameKey t2 n2 = sameKey t n := by
  funext z
  rcases sameKey_iff.mp h1 with ⟨a1, a2⟩
  rcases sameKey_iff.mp h2 with ⟨b1, b2⟩
  cases hz : sameKey t n z with
  | true =>
    rcases sameKey_iff.mp hz with ⟨c1, c2⟩
    exact sameKey_iff.mpr
      ⟨c1.trans (a1.symm.trans b1), c2.trans (a2.symm.trans b2)⟩
  | false =>
    cases hz2 : sameKey t2 n2 z with
    | false => rfl
    | true =>
      rcases sameKey_iff.mp hz2 with ⟨c1, c2⟩
      have hzt : sameKey t n z = true := sameKey_iff.mpr
        ⟨c1.trans (b1.symm.trans a1), c2.trans (b2.symm.trans a2)⟩
      rw [hzt] at hz
      cases hz

/-- Two stores that agree except at the first record matching the key of one
element, where the two records agree after that element's rewrite. -/
inductive SimIn (s : ScanState) (b : Str) (t : Nat) (n : Str) :
    Store → Store → Prop
  | refl (l : Store) : SimIn s b t n l l
  | diff (pre rest : Store) (x y : DbObject)
      (hpre : ∀ z ∈ pre, sameKey t n z = false)
      (hx : sameKey t n x = true) (hy : sameKey t n y = true)
      (hw : recW s b x = recW s b y) :
      SimIn s b t n (pre ++ x :: rest) (pre ++ y :: rest)

theorem simIn_apply {attrs : List (Str × Str)} {body tagS nameS : Str}
    (htag : (scanAttrs attrs).tag = some tagS)
    (hname : (scanAttrs attrs).name = some nameS)
    {db1 db2 : Store}
    (hsim : SimIn (scanAttrs attrs) body (toULONG (PhStringToInteger64 tagS))
      nameS db1 db2) :
    loadElement db1 (.element attrs body)
      = loadElement db2 (.element attrs body) := by
  cases hsim with
  | refl l => rfl
  | diff pre rest x y hpre hx hy hw =>
    have hpre' : pre.find?
        (sameKey (toULONG (PhStringToInteger64 tagS)) nameS) = none :=
      List.find?_eq_none.mpr (by simpa using hpre)
    have hf1 : FindDbObject (pre ++ x :: rest)
        (toULONG (PhStringToInteger64 tagS)) nameS = some x := by
      rw [FindDbObject, find?_append_none _ hpre', List.find?_cons, hx]
    have hf2 : FindDbObject (pre ++ y :: rest)
        (toULONG (PhStringToInteger64 tagS)) nameS = some y := by
      rw [FindDbObject, find?_append_none _ hpre', List.find?_cons, hy]
    rw [loadElement_found htag hname hf1, loadElement_found htag hname hf2,
      setAtKey_decomp _ hpre hx, setAtKey_decomp _ hpre hy, hw]

theorem simIn_perturb {attrs : List (Str × Str)} {body tagS nameS : Str}
    {db : Store} {o : DbObject}
    (htag : (scanAttrs attrs).tag = some tagS)
    (hname : (scanAttrs attrs).name = some nameS)
    (hf : FindDbObject db (toULONG (PhStringToInteger64 tagS)) nameS
      = some o) :
    SimIn (scanAttrs attrs) body (toULONG (PhStringToInteger64 tagS)) nameS
      (loadElement db (.element attrs body)) db := by
  obtain ⟨pre, rest, rfl, hpre, hpo⟩ := find?_decomp hf
  rw [loadElement_found htag hname hf, setAtKey_decomp _ hpre hpo]
  exact SimIn.diff pre rest _ o hpre
    (by rw [sameKey_recW]; exact hpo) hpo (recW_idem _ _ _)

theorem simIn_step {s : ScanState} {b : Str} {t : Nat} {n : Str}
    {db1 db2 : Store} (c : XmlChild) (hsim : SimIn s b t n db1 db2) :
    SimIn s b t n (loadElement db1 c) (loadElement db2 c) := by
  cases hsim with
  | refl l => exact SimIn.refl _
  | diff pre rest x y hpre hx hy hw =>
    cases hk : elemKey c with
    | none =>
      rw [loadElement_none _ hk, loadElement_none _ hk]
      exact SimIn.diff pre rest x y hpre hx hy hw
    | some tn =>
      obtain ⟨t2, n2⟩ := tn
      obtain ⟨attrs, body, tagS, rfl, htag, hname, rfl⟩ := elemKey_some hk
      cases hxc : sameKey (toULONG (PhStringToInteger64 tagS)) n2 x with
      | true =>
        have hpeq : sameKey (toULONG (PhStringToInteger64 tagS)) n2
            = sameKey t n := sameKey_pred_eq hx hxc
        have hyc : sameKey (toULONG (PhStringToInteger64 tagS)) n2 y
            = true := by
          rw [hpeq]
          exact hy
        have hpre2 : ∀ z ∈ pre,
            sameKey (toULONG (PhStringToInteger64 tagS)) n2 z = false := by
          intro z hz
          rw [hpeq]
          exact hpre z hz
        have hpre2' : pre.find?
            (sameKey (toULONG (PhStringToInteger64 tagS)) n2) = none :=
          List.find?_eq_none.mpr (by simpa using hpre2)
        have hf1 : FindDbObject (pre ++ x :: rest)
            (toULONG (PhStringToInteger64 tagS)) n2 = some x := by
          rw [FindDbObject, find?_append_none _ hpre2', List.find?_cons, hxc]
        have hf2 : FindDbObject (pre ++ y :: rest)
            (toULONG (PhStringToInteger64 tagS)) n2 = some y := by
          rw [FindDbObject, find?_append_none _ hpre2', List.find?_cons, hyc]
        rw [loadElement_found htag hname hf1, loadElement_found htag hname hf2,
          setAtKey_decomp _ hpre2 hxc, setAtKey_decomp _ hpre2 hyc]
        refine SimIn.diff pre rest _ _ hpre ?_ ?_ ?_
        · rw [sameKey_recW]
          exact hx
        · rw [sameKey_recW]
          exact hy
        · exact recW_congr hw (scanAttrs attrs) body
      | false =>
        have hyc : sameKey (toULONG (PhStringToInteger64 tagS)) n2 y
            = false := by
          cases hyc2 : sameKey (toULONG (PhStringToInteger64 tagS)) n2 y with
          | false => rfl
          | true =>
            have hxt := sameKey_of_keyOf_eq (keyOf_eq_of_sameKey hy hx) hyc2
            rw [hxt] at hxc
            cases hxc
        cases hzp : pre.find?
            (sameKey (toULONG (PhStringToInteger64 tagS)) n2) with
        | some z =>
          have hzmem : z ∈ pre := List.mem_of_find?_eq_some hzp
          have hf1 : FindDbObject (pre ++ x :: rest)
              (toULONG (PhStringToInteger64 tagS)) n2 = some z := by
            rw [FindDbObject, find?_append_some hzp]
          have hf2 : FindDbObject (pre ++ y :: rest)
              (toULONG (PhStringToInteger64 tagS)) n2 = some z := by
            rw [FindDbObject, find?_append_some hzp]
          rw [loadElement_found htag hname hf1,
            loadElement_found htag hname hf2,
            setAtKey_append_some _ hzp, setAtKey_append_some _ hzp]
          refine SimIn.diff _ rest x y ?_ hx hy hw
          intro u hu
          rcases mem_setAtKey hu with hu | hu
          · exact hpre u hu
          · subst hu
            rw [sameKey_recW]
            exact hpre z hzmem
        | none =>
          cases hzr : rest.find?
              (sameKey (toULONG (PhStringToInteger64 tagS)) n2) with
          | some z =>
            have hf1 : FindDbObject (pre ++ x :: rest)
                (toULONG (PhStringToInteger64 tagS)) n2 = some z := by
              rw [FindDbObject, find?_append_none _ hzp, List.find?_cons, hxc,
                hzr]
            have hf2 : FindDbObject (pre ++ y :: rest)
                (toULONG (PhStringToInteger64 tagS)) n2 = some z := by
              rw [FindDbObject, find?_append_none _ hzp, List.find?_cons, hyc,
                hzr]
            rw [loadElement_found htag hname hf1,
              loadElement_found htag hname hf2,
              setAtKey_append_none _ _ hzp, setAtKey_append_none _ _ hzp,
              setAtKey, if_neg (by simp [hxc]), setAtKey,
              if_neg (by simp [hyc])]
            exact SimIn.diff pre _ x y hpre hx hy hw
          | none =>
            have hf1 : FindDbObject (pre ++ x :: rest)
                (toULONG (PhStringToInteger64 tagS)) n2 = none := by
              rw [FindDbObject, find?_append_none _ hzp, List.find?_cons, hxc,
                hzr]
            have hf2 : FindDbObject (pre ++ y :: rest)
                (toULONG (PhStringToInteger64 tagS)) n2 = none := by
              rw [FindDbObject, find?_append_none _ hzp, List.find?_cons, hyc,
                hzr]
            rw [loadElement_notfound htag hname hf1,
              loadElement_notfound htag hname hf2,
              List.append_assoc, List.append_assoc]
            exact SimIn.diff pre _ x y hpre hx hy hw

theorem simIn_foldl {s : ScanState} {b : Str} {t : Nat} {n : Str}
    (L : List XmlChild) : ∀ {db1 db2 : Store}, SimIn s b t n db1 db2 →
    SimIn s b t n (List.foldl loadElement db1 L)
      (List.foldl loadElement db2 L) := by
  induction L with
  | nil => intro db1 db2 h; exact h
  | cons c rest ih =>
    intro db1 db2 h
    exact ih (simIn_step c h)

theorem foldl_loadElement_idem (L : List XmlChild) : ∀ S : Store,
    List.foldl loadElement (List.foldl loadElement S L) L
      = List.foldl loadElement S L := by
  induction L using List.reverseRecOn with
  | nil => intro S; rfl
  | append_singleton L' e ih =>
    intro S
    simp only [List.foldl_append, List.foldl_cons, List.foldl_nil]
    have hT : List.foldl loadElement (List.foldl loadElement S L') L'
        = List.foldl loadElement S L' := ih S
    cases hk : elemKey e with
    | none =>
      have he : ∀ db : Store, loadElement db e = db :=
        fun db => loadElement_none db hk
      simp only [he]
      exact hT
    | some tn =>
      obtain ⟨t, n⟩ := tn
      obtain ⟨attrs, body, tagS, rfl, htag, hname, rfl⟩ := elemKey_some hk
      cases hf : FindDbObject (List.foldl loadElement S L')
          (toULONG (PhStringToInteger64 tagS)) n with
      | some o =>
        have hsim1 := @simIn_perturb attrs body tagS n
          (List.foldl loadElement S L') o htag hname hf
        have hsim2 := simIn_foldl L' hsim1
        have happ := simIn_apply htag hname hsim2
        rw [happ, hT]
      | none =>
        have hcov : ∀ c ∈ L', ∀ (t2 : Nat) (n2 : Str),
            elemKey c = some (t2, n2) →
            (FindDbObject (List.foldl loadElement S L') t2 n2).isSome
              = true :=
          fun c hc t2 n2 hk2 => foldl_covers L' S c hc t2 n2 hk2
        have hf' : (List.foldl loadElement S L').find?
            (sameKey (toULONG (PhStringToInteger64 tagS)) n) = none := hf
        have hwkey : sameKey (toULONG (PhStringToInteger64 tagS)) n
            (recW (scanAttrs attrs) body
              (freshObj (toULONG (PhStringToInteger64 tagS)) n)) = true := by
          rw [sameKey_recW]
          exact sameKey_self rfl rfl
        rw [loadElement_notfound htag hname hf,
          foldl_append_foreign L' _ _ hcov, hT]
        have hfw : FindDbObject
            (List.foldl loadElement S L' ++ [recW (scanAttrs attrs) body
              (freshObj (toULONG (PhStringToInteger64 tagS)) n)])
            (toULONG (PhStringToInteger64 tagS)) n
            = some (recW (scanAttrs attrs) body
              (freshObj (toULONG (PhStringToInteger64 tagS)) n)) := by
          rw [FindDbObject, find?_append_none _ hf', List.find?_cons, hwkey]
        rw [loadElement_found htag hname hfw, setAtKey_append_none _ _ hf',
          setAtKey, if_pos hwkey, recW_idem]

/-- C10: decoding is idempotent over the existing store contents: for every
well-formed document (an element root with any children) and every store S,
decoding the document into S and then decoding it again into the result
yields the same store as decoding it once, because each materialized element
routes through create-or-update on its key and rewrites comment,
priorityClass, ioPriorityPlusOne and (when present) backColor, collapse and
affinityMask with the same decoded values. -/
theorem c10_decode_idempotent (children : List XmlChild) (S : Store) :
    (LoadDb (some (.element children))
        ((LoadDb (some (.element children)) S).2)).2
      = (LoadDb (some (.element children)) S).2 :=
  foldl_loadElement_idem children S
